import Mathlib

set_option linter.unusedVariables false

/-! Shallow embedding of the OrganMaker diagram state and history engine
    (src/src/store/useFlowStore.js, constants from src/config).
    JavaScript numbers that only ever hold integral pixel values are
    embedded as Int; JS object maps keyed by node id are embedded as
    total functions or association lists; the uuid supply is embedded as
    an injective counter-indexed id generator. -/

/-- A 2-d position, the `{x, y}` objects of the source. -/
structure Pt where
  x : Int
  y : Int
deriving DecidableEq, Repr

/-- Constant from src/config: maximum undo depth. -/
def UNDO_LIMIT : Nat := 50

/-- Constant from src/config. -/
def PERSON_NODE_WIDTH : Int := 256

/-- Constant from src/config. -/
def PERSON_NODE_HEIGHT : Int := 200

/-- Constant from src/config. -/
def PERSON_Z_INDEX : Int := 10

/-- Constant from src/config. -/
def SECTION_Z_INDEX : Int := -10

/-- Constant from src/config. -/
def SECTION_SELECTED_Z_INDEX : Int := -5

/-- Constant from src/config. -/
def LAYOUT_RANK_SEP : Int := 100

/-- Constant from src/config. -/
def LAYOUT_NODE_SEP : Int := 60

/-- Constant from src/config. -/
def LAYOUT_MARGIN_X : Int := 40

/-- Constant from src/config. -/
def LAYOUT_MARGIN_Y : Int := 40

/-- Constant from src/config. -/
def SIDE_OFFSET_X : Int := 180

/-- Constant from src/config. -/
def SIDE_STACK_GAP_Y : Int := 25

/-- Constant from src/config. -/
def SIDE_START_Y : Int := 40

/-- Constant from src/config. -/
def PASTE_OFFSET : Int := 60

/-- Constant from src/config. -/
def DEFAULT_EDGE_COLOR : String := "#6366f1"

/-- Constant from src/config. -/
def DEFAULT_FILE_NAME : String := "Mon Organigramme"

/-- JavaScript `a || d` for a string-or-nullish value `a`:
    null, undefined and the empty string fall back to the default. -/
def jsOr (o : Option String) (d : String) : String :=
  match o with
  | none => d
  | some s => if s = "" then d else s

/-- JavaScript `a || 1` for the parsed file version: NaN/absent and 0
    fall back to 1. -/
def jsOrOne (o : Option Nat) : Nat :=
  match o with
  | none => 1
  | some 0 => 1
  | some v => v

/-- JavaScript `l.slice(-k)` for `k > 0`: the last `k` elements
    (the whole list when it is shorter). -/
def sliceLast (k : Nat) (l : List α) : List α :=
  l.drop (l.length - k)

/-- Variant-specific payload of a node (`node.data` in the source); person
    and section fields merged into one record of optional fields, as in the
    untyped JS objects. -/
structure NodeData where
  name : Option String := none
  role : Option String := none
  comment : Option String := none
  showComment : Option Bool := none
  photo : Option String := none
  bgColor : Option String := none
  borderColor : Option String := none
  title : Option String := none
  color : Option String := none
deriving DecidableEq, Repr

/-- `node.style` (sections carry width/height here). -/
structure NodeStyle where
  width : Option Int := none
  height : Option Int := none
deriving DecidableEq, Repr

/-- A React Flow node as stored in `useFlowStore`; the fields after
    `style` are the volatile interaction fields stripped by `_partialize`. -/
structure Node where
  id : String
  nodeType : String := "person"
  position : Pt := ⟨0, 0⟩
  zIndex : Option Int := none
  data : NodeData := {}
  style : Option NodeStyle := none
  selected : Bool := false
  dragging : Bool := false
  width : Option Int := none
  height : Option Int := none
  positionAbsolute : Option Pt := none
  measured : Option Pt := none
  resizing : Bool := false
  handleBounds : Option Bool := none
deriving DecidableEq, Repr

/-- `edge.data` (color, dashed flag). -/
structure EdgeData where
  color : Option String := none
  dashed : Option Bool := none
deriving DecidableEq, Repr

/-- `edge.markerEnd`. -/
structure EdgeMarker where
  markerType : Option String := none
  color : Option String := none
deriving DecidableEq, Repr

/-- `edge.style`. -/
structure EdgeStyle where
  stroke : Option String := none
  strokeWidth : Option Int := none
deriving DecidableEq, Repr

/-- A React Flow edge as stored in `useFlowStore`; `selected` is the one
    volatile field stripped by `_partialize`. -/
structure Edge where
  id : String
  source : String
  target : String
  sourceHandle : Option String := none
  targetHandle : Option String := none
  edgeType : Option String := none
  data : Option EdgeData := none
  markerEnd : Option EdgeMarker := none
  style : Option EdgeStyle := none
  selected : Bool := false
deriving DecidableEq, Repr

/-- A node with the volatile fields stripped, as produced by `_partialize`. -/
structure SNode where
  id : String
  nodeType : String
  position : Pt
  zIndex : Option Int
  data : NodeData
  style : Option NodeStyle
deriving DecidableEq, Repr

/-- An edge with the volatile `selected` field stripped. -/
structure SEdge where
  id : String
  source : String
  target : String
  sourceHandle : Option String
  targetHandle : Option String
  edgeType : Option String
  data : Option EdgeData
  markerEnd : Option EdgeMarker
  style : Option EdgeStyle
deriving DecidableEq, Repr

/-- A history snapshot: the volatile-field-stripped `{nodes, edges}` pair. -/
structure Snapshot where
  nodes : List SNode
  edges : List SEdge
deriving DecidableEq, Repr

/-- `_partialize` on one node: drop selected, dragging, width, height,
    positionAbsolute, measured, resizing, handleBounds. -/
def stripNode (n : Node) : SNode :=
  ⟨n.id, n.nodeType, n.position, n.zIndex, n.data, n.style⟩

/-- `_partialize` on one edge: drop `selected`. -/
def stripEdge (e : Edge) : SEdge :=
  ⟨e.id, e.source, e.target, e.sourceHandle, e.targetHandle, e.edgeType,
   e.data, e.markerEnd, e.style⟩

/-- A preset: a named reusable sub-graph (only its shape matters here). -/
structure Preset where
  id : String := ""
  name : String := ""
  nodes : List Node := []
  edges : List Edge := []
deriving DecidableEq, Repr

/-- The undo-tracked part of the store. -/
structure AppState where
  nodes : List Node := []
  edges : List Edge := []
  fileName : String := DEFAULT_FILE_NAME
  fileVersion : Nat := 1
  presets : List Preset := []
deriving DecidableEq, Repr

/-- `_partialize({nodes, edges})`: the snapshot of the current state. -/
def stripApp (a : AppState) : Snapshot :=
  ⟨a.nodes.map stripNode, a.edges.map stripEdge⟩

/-- The zundo temporal state: bounded past and future stacks plus the
    pause flag toggled by `pause()` / `resume()`. -/
structure Temporal where
  pastStates : List Snapshot := []
  futureStates : List Snapshot := []
  paused : Bool := false
deriving DecidableEq, Repr

/-- The module-level mutable batching state of useFlowStore.js:
    `_preDragSnapshot`, `_editSnapshot` and the pending `_editTimer`
    handle (embedded as a pending flag, real time being external). -/
structure BatchVars where
  preDrag : Option Snapshot := none
  editSnap : Option Snapshot := none
  editTimerPending : Bool := false
deriving DecidableEq, Repr

/-- The module-level `_clipboard`. -/
structure Clipboard where
  nodes : List Node := []
  edges : List Edge := []
deriving DecidableEq, Repr

/-- The whole mutable world of the store module: zustand state, zundo
    temporal state, module-level batching vars and clipboard, plus the
    counter that models the uuid supply. -/
structure Store where
  app : AppState := {}
  temporal : Temporal := {}
  vars : BatchVars := {}
  clipboard : Clipboard := {}
  uuidCounter : Nat := 0
deriving DecidableEq, Repr

/-- Modelled from the spec: the uuid v4 supply (external library).
    Embedded as an injective counter-indexed generator of fresh ids. -/
def uuidModel (k : Nat) : String :=
  String.mk (Char.ofNat 117 :: List.replicate k (Char.ofNat 117))

/-- Modelled from the spec: zundo's wrapped `set` (the zundo library is a
    dependency, not in src/). When not paused and when the partialized
    state changes (the configured JSON equality), the previous snapshot is
    pushed onto `past` trimming the oldest beyond UNDO_LIMIT, and `future`
    is cleared (spec section 4.2, `commit`). -/
def tempSet (f : AppState → AppState) (s : Store) : Store :=
  let newApp := f s.app
  if s.temporal.paused then { s with app := newApp }
  else if stripApp newApp = stripApp s.app then { s with app := newApp }
  else
    { s with
      app := newApp
      temporal :=
        { pastStates := sliceLast UNDO_LIMIT (s.temporal.pastStates ++ [stripApp s.app])
          futureStates := []
          paused := s.temporal.paused } }

/-- Restore a snapshot into the app state (zundo `setState` on undo/redo:
    the stripped fields come back absent/false). -/
def unstripNode (n : SNode) : Node :=
  { id := n.id, nodeType := n.nodeType, position := n.position,
    zIndex := n.zIndex, data := n.data, style := n.style }

/-- Restore one stripped edge. -/
def unstripEdge (e : SEdge) : Edge :=
  { id := e.id, source := e.source, target := e.target,
    sourceHandle := e.sourceHandle, targetHandle := e.targetHandle,
    edgeType := e.edgeType, data := e.data, markerEnd := e.markerEnd,
    style := e.style }

/-- Restore a whole snapshot. -/
def restoreApp (snap : Snapshot) (a : AppState) : AppState :=
  { a with nodes := snap.nodes.map unstripNode, edges := snap.edges.map unstripEdge }

/-- Modelled from the spec: zundo `undo()` — pop the top of `past` into
    `future` and restore the popped snapshot; no-op when `past` is empty
    (spec section 4.2). -/
def undoOp (s : Store) : Store :=
  match s.temporal.pastStates.getLast? with
  | none => s
  | some snap =>
    { s with
      app := restoreApp snap s.app
      temporal :=
        { pastStates := s.temporal.pastStates.dropLast
          futureStates := sliceLast UNDO_LIMIT (s.temporal.futureStates ++ [stripApp s.app])
          paused := s.temporal.paused } }

/-- Modelled from the spec: zundo `redo()` — symmetric, consuming from
    `future` (spec section 4.2). -/
def redoOp (s : Store) : Store :=
  match s.temporal.futureStates.getLast? with
  | none => s
  | some snap =>
    { s with
      app := restoreApp snap s.app
      temporal :=
        { pastStates := sliceLast UNDO_LIMIT (s.temporal.pastStates ++ [stripApp s.app])
          futureStates := s.temporal.futureStates.dropLast
          paused := s.temporal.paused } }

/-- A React Flow node change event, restricted to the variants the store
    callbacks inspect (`type === 'position'` with its `dragging` flag,
    and selection toggles). -/
inductive NodeChange where
  | position (id : String) (pos : Option Pt) (dragging : Option Bool)
  | select (id : String) (sel : Bool)
deriving DecidableEq, Repr

/-- Modelled from the spec: reactflow `applyNodeChanges` for one change
    (the reactflow helper is a dependency, not in src/): a position change
    updates the matching node's position and drag flag, a select change
    its selection flag. -/
def applyNodeChange1 (c : NodeChange) (ns : List Node) : List Node :=
  match c with
  | .position i p d =>
    ns.map fun n =>
      if n.id = i then { n with position := p.getD n.position, dragging := d.getD n.dragging }
      else n
  | .select i b =>
    ns.map fun n => if n.id = i then { n with selected := b } else n

/-- Modelled from the spec: reactflow `applyNodeChanges` over a change list. -/
def applyNodeChangesModel (cs : List NodeChange) (ns : List Node) : List Node :=
  cs.foldl (fun a c => applyNodeChange1 c a) ns

/-- `changes.some(c => c.type === 'position' && c.dragging)`. -/
def hasDragTrue (cs : List NodeChange) : Bool :=
  cs.any fun c =>
    match c with
    | .position _ _ (some true) => true
    | _ => false

/-- `changes.some(c => c.type === 'position' && c.dragging === false)`. -/
def hasDragEnd (cs : List NodeChange) : Bool :=
  cs.any fun c =>
    match c with
    | .position _ _ (some false) => true
    | _ => false

/-- The zIndex normalization applied to every node inside onNodesChange
    (sections behind, selected sections slightly raised, persons in front). -/
def zIndexPass (n : Node) : Node :=
  if n.nodeType = "section" then
    { n with zIndex := some (if n.selected then SECTION_SELECTED_Z_INDEX else SECTION_Z_INDEX) }
  else if n.nodeType = "person" then { n with zIndex := some PERSON_Z_INDEX }
  else n

/-- First drag frame of onNodesChange: capture the pre-drag snapshot and
    pause the temporal middleware. -/
def captureIfDragStart (isDragging : Bool) (s : Store) : Store :=
  if isDragging && s.vars.preDrag.isNone then
    { s with
      vars := { s.vars with preDrag := some (stripApp s.app) }
      temporal := { s.temporal with paused := true } }
  else s

/-- Drag-release tail of onNodesChange: resume and push exactly one
    history entry (the pre-drag snapshot), clearing the future stack. -/
def commitDragIfEnded (dragEnded : Bool) (s : Store) : Store :=
  match s.vars.preDrag with
  | none => s
  | some snap =>
    if dragEnded then
      { s with
        temporal :=
          { pastStates := sliceLast (UNDO_LIMIT - 1) s.temporal.pastStates ++ [snap]
            futureStates := []
            paused := false }
        vars := { s.vars with preDrag := none } }
    else s

/-- `onNodesChange` from useFlowStore.js: detect drag start/end, apply the
    node changes with the zIndex pass through the (possibly paused)
    temporal set, then commit the batched drag entry on release. -/
def onNodesChange (s : Store) (cs : List NodeChange) : Store :=
  let s1 := captureIfDragStart (hasDragTrue cs) s
  let s2 := tempSet (fun a => { a with nodes := (applyNodeChangesModel cs a.nodes).map zIndexPass }) s1
  commitDragIfEnded (hasDragEnd cs) s2

/-- `updateNodeData` from useFlowStore.js: capture a pre-edit snapshot
    once per burst, pause, merge the partial payload into the node, and
    (re)arm the commit timer. The partial-object merge is embedded as a
    merge function on the payload record. -/
def updateNodeData (s : Store) (nodeId : String) (merge : NodeData → NodeData) : Store :=
  let s1 :=
    if s.vars.editSnap.isNone then
      { s with
        vars := { s.vars with editSnap := some (stripApp s.app) }
        temporal := { s.temporal with paused := true } }
    else s
  let s2 := tempSet (fun a =>
    { a with nodes := a.nodes.map fun n => if n.id = nodeId then { n with data := merge n.data } else n }) s1
  { s2 with vars := { s2.vars with editTimerPending := true } }

/-- The body of the `_editTimer` timeout in `updateNodeData`: after the
    quiet period, resume and push the captured pre-edit snapshot, clearing
    the future stack. -/
def editTimerFire (s : Store) : Store :=
  match s.vars.editSnap with
  | none => { s with vars := { s.vars with editTimerPending := false } }
  | some snap =>
    { s with
      temporal :=
        { pastStates := sliceLast (UNDO_LIMIT - 1) s.temporal.pastStates ++ [snap]
          futureStates := []
          paused := false }
      vars := { s.vars with editSnap := none, editTimerPending := false } }

/-- The connection object delivered to `onConnect`. -/
structure ConnParams where
  source : String
  target : String
  sourceHandle : Option String := none
  targetHandle : Option String := none
deriving DecidableEq, Repr

/-- Modelled from the spec: reactflow's duplicate test used by `addEdge`
    (two connections are the same when endpoints and handles agree,
    nullish handles matching each other). -/
def handleMatches (a b : Option String) : Bool :=
  a == b || ((jsOr a "") == "" && (jsOr b "") == "")

/-- Modelled from the spec: reactflow `connectionExists`. -/
def connectionExists (e : Edge) (es : List Edge) : Bool :=
  es.any fun el =>
    el.source == e.source && el.target == e.target &&
    handleMatches el.sourceHandle e.sourceHandle &&
    handleMatches el.targetHandle e.targetHandle

/-- Modelled from the spec: the reactflow `addEdge` helper called by
    `onConnect` (a dependency, not in src/). It receives ONLY the edge and
    the current edge list — never the node list — and appends the edge
    unless an endpoint id is nullish/empty or an identical connection
    already exists. -/
def rfAddEdge (e : Edge) (es : List Edge) : List Edge :=
  if e.source = "" || e.target = "" then es
  else if connectionExists e es then es
  else es ++ [e]

/-- The edge literal built inside `onConnect` (defaulted handles, fresh
    uuid, default styling). -/
def onConnectEdge (s : Store) (c : ConnParams) : Edge :=
  { id := uuidModel s.uuidCounter
    source := c.source
    target := c.target
    sourceHandle := some (jsOr c.sourceHandle "source-bottom")
    targetHandle := some (jsOr c.targetHandle "target-top")
    edgeType := some "custom"
    data := some { color := some DEFAULT_EDGE_COLOR, dashed := some false }
    markerEnd := some { markerType := some "arrowclosed", color := some DEFAULT_EDGE_COLOR }
    style := some { stroke := some DEFAULT_EDGE_COLOR, strokeWidth := some 2 } }

/-- `onConnect` from useFlowStore.js. -/
def onConnect (s : Store) (c : ConnParams) : Store :=
  let edge := onConnectEdge s c
  let s1 := { s with uuidCounter := s.uuidCounter + 1 }
  tempSet (fun a => { a with edges := rfAddEdge edge a.edges }) s1

/-- `_migrateEdges` on one edge: nullish/empty handles get the explicit
    default handle ids. -/
def migrateEdge1 (e : Edge) : Edge :=
  { e with
    sourceHandle := some (jsOr e.sourceHandle "source-bottom")
    targetHandle := some (jsOr e.targetHandle "target-top") }

/-- `_migrateEdges` from useFlowStore.js (the non-array passthrough guard
    is vacuous here because the embedding types the list). -/
def migrateEdges (edges : List Edge) : List Edge :=
  edges.map migrateEdge1

/-- `_migrateNodeZIndex` from useFlowStore.js. -/
def migrateNodeZIndex (nodes : List Node) : List Node :=
  nodes.map fun n =>
    if n.nodeType = "person" then
      if n.zIndex = some PERSON_Z_INDEX then n else { n with zIndex := some PERSON_Z_INDEX }
    else if n.nodeType = "section" then
      match n.zIndex with
      | none =>
        { n with zIndex := some (if n.selected then SECTION_SELECTED_Z_INDEX else SECTION_Z_INDEX) }
      | some z =>
        if z > SECTION_Z_INDEX then
          { n with zIndex := some (if n.selected then SECTION_SELECTED_Z_INDEX else SECTION_Z_INDEX) }
        else n
    else n

/-- A parsed localStorage payload as destructured by `loadFlow` (fields
    may be absent). -/
structure StoredPayload where
  nodes : Option (List Node) := none
  edges : Option (List Edge) := none
  fileName : Option String := none
  fileVersion : Option Nat := none
  presets : Option (List Preset) := none
deriving DecidableEq, Repr

/-- `loadFlow` from useFlowStore.js, with the localStorage read embedded
    as an optional already-parsed payload (none = no raw value or a JSON
    parse failure). The trailing `temporal.clear()` empties both stacks
    in every case; the module-level batching vars are NOT touched. -/
def loadFlowOp (p : Option StoredPayload) (s : Store) : Store :=
  let s1 :=
    match p with
    | none => s
    | some pl =>
      tempSet (fun a =>
        { a with
          nodes := migrateNodeZIndex (pl.nodes.getD [])
          edges := migrateEdges (pl.edges.getD [])
          fileName := jsOr pl.fileName DEFAULT_FILE_NAME
          fileVersion := jsOrOne pl.fileVersion
          presets := pl.presets.getD [] }) s
  { s1 with temporal := { s1.temporal with pastStates := [], futureStates := [] } }

/-- `resetFlow` from useFlowStore.js: reset the tracked state to its
    initial value and clear both temporal stacks. The module-level
    batching vars are NOT touched. -/
def resetFlowOp (s : Store) : Store :=
  let s1 := tempSet (fun _a => {}) s
  { s1 with temporal := { s1.temporal with pastStates := [], futureStates := [] } }

/-- A JSON field that must be an array: either a typed list or anything
    else (absent, object, string, number ...). -/
inductive ArrField (α : Type) where
  | arr (l : List α)
  | notArr
deriving DecidableEq, Repr

/-- The `meta` object of an import payload (`version` already passed
    through `parseInt`: none models NaN). -/
structure ImportMeta where
  fileName : Option String := none
  version : Option Nat := none
deriving DecidableEq, Repr

/-- A parsed import payload. -/
structure ImportPayload where
  nodes : ArrField Node := .notArr
  edges : ArrField Edge := .notArr
  meta : Option ImportMeta := none
  presets : Option (List Preset) := none
deriving DecidableEq, Repr

/-- Result of the import file handler: resulting store, whether the
    rejection alert fired, whether the payload was applied. -/
structure ImportResult where
  store : Store
  alerted : Bool
  imported : Bool
deriving DecidableEq, Repr

/-- The `reader.onload` body of `importFlow` from useFlowStore.js for an
    already-parsed payload: reject non-array nodes/edges with an alert
    before anything else, then ask for confirmation (embedded as the
    `confirmOk` argument), then replace the tracked state. -/
def importFlowLoad (p : ImportPayload) (confirmOk : Bool) (s : Store) : ImportResult :=
  match p.nodes, p.edges with
  | ArrField.arr ns, ArrField.arr es =>
    if confirmOk then
      let meta := p.meta.getD {}
      let s1 := tempSet (fun a =>
        { a with
          nodes := migrateNodeZIndex ns
          edges := migrateEdges es
          fileName := jsOr meta.fileName DEFAULT_FILE_NAME
          fileVersion := jsOrOne meta.version
          presets := p.presets.getD [] }) s
      ⟨s1, false, true⟩
    else ⟨s, false, false⟩
  | _, _ => ⟨s, true, false⟩

/-- `copySelected` from useFlowStore.js: capture the selected nodes and
    the connections internal to the selection into the module clipboard. -/
def copySelected (s : Store) : Store :=
  let selected := s.app.nodes.filter fun n => n.selected
  if selected.isEmpty then s
  else
    let selectedIds := selected.map fun n => n.id
    let connectedEdges := s.app.edges.filter fun e =>
      selectedIds.contains e.source && selectedIds.contains e.target
    { s with clipboard := ⟨selected, connectedEdges⟩ }

/-- The freshly-renamed nodes built by `pasteClipboard` (uuid per node,
    fixed offset, selected iff the paste is multi-node). -/
def pasteNewNodes (s : Store) : List Node :=
  s.clipboard.nodes.enum.map fun p =>
    { p.2 with
      id := uuidModel (s.uuidCounter + p.1)
      position := ⟨p.2.position.x + PASTE_OFFSET, p.2.position.y + PASTE_OFFSET⟩
      selected := decide (1 < s.clipboard.nodes.length) }

/-- The old-id to new-id map built by `pasteClipboard` (`idMap`), as a
    lookup: the JS object keeps the last assignment for a duplicated key,
    and `idMap[x] || x` falls back to the old id. -/
def pasteIdMapF (s : Store) (oldId : String) : String :=
  match (s.clipboard.nodes.enum.filter fun p => p.2.id = oldId).getLast? with
  | some p => uuidModel (s.uuidCounter + p.1)
  | none => oldId

/-- The freshly-rewritten edges built by `pasteClipboard` (uuids continue
    after the node uuids, endpoints rewritten through `idMap`). -/
def pasteNewEdges (s : Store) : List Edge :=
  s.clipboard.edges.enum.map fun p =>
    { p.2 with
      id := uuidModel (s.uuidCounter + s.clipboard.nodes.length + p.1)
      source := pasteIdMapF s p.2.source
      target := pasteIdMapF s p.2.target }

/-- `pasteClipboard` from useFlowStore.js: no-op on an empty clipboard;
    otherwise insert the renamed copies (deselecting existing nodes on a
    multi-node paste) and shift the clipboard for the next paste. -/
def pasteClipboard (s : Store) : Store :=
  if s.clipboard.nodes.isEmpty then s
  else
    let multi := decide (1 < s.clipboard.nodes.length)
    let newNodes := pasteNewNodes s
    let newEdges := pasteNewEdges s
    let s1 := tempSet (fun a =>
      { a with
        nodes := (if multi then a.nodes.map fun n => { n with selected := false } else a.nodes) ++ newNodes
        edges := a.edges ++ newEdges }) s
    { s1 with
      uuidCounter := s.uuidCounter + s.clipboard.nodes.length + s.clipboard.edges.length
      clipboard :=
        { s1.clipboard with
          nodes := s1.clipboard.nodes.map fun n =>
            { n with position := ⟨n.position.x + PASTE_OFFSET, n.position.y + PASTE_OFFSET⟩ } } }

/-- A position map keyed by node id (`posMap` in autoLayout), embedded as
    a total function; only person ids are ever read. -/
abbrev PosMap := String → Pt

/-- The abstract interface of the dagre layout call: it receives exactly
    what autoLayout feeds `dagre.graphlib.Graph` — the person ids with the
    width/height each was registered with, and the hierarchical edges —
    and yields the center position `g.node(id)` of every node. The graph
    options are the fixed constants of src/config. -/
abbrev DagreFn := List (String × Int × Int) → List (String × String) → PosMap

/-- The target-handle with its default, as read inside autoLayout
    (`e.targetHandle || 'target-top'`). -/
def targetHandleOf (e : Edge) : String :=
  jsOr e.targetHandle "target-top"

/-- Whether autoLayout classifies an edge as lateral (side) rather than
    hierarchical (tree). -/
def isSideEdge (e : Edge) : Bool :=
  targetHandleOf e = "target-left" || targetHandleOf e = "target-right"

/-- The person-to-person edges of the graph (both endpoints persons). -/
def personEdges (personIds : List String) (edges : List Edge) : List Edge :=
  edges.filter fun e => personIds.contains e.source && personIds.contains e.target

/-- The hierarchical (tree) edges among the person-to-person edges. -/
def treeEdgesOf (personIds : List String) (edges : List Edge) : List Edge :=
  (personEdges personIds edges).filter fun e => !isSideEdge e

/-- The lateral (side) edges among the person-to-person edges. -/
def sideEdgesOf (personIds : List String) (edges : List Edge) : List Edge :=
  (personEdges personIds edges).filter fun e => isSideEdge e

/-- `treeChildrenMap[nid]`: tree-edge targets of a node, in edge order. -/
def treeChildrenOf (treeEdges : List Edge) (nid : String) : List String :=
  (treeEdges.filter fun e => e.source = nid).map fun e => e.target

/-- `getTreeDescendants` with its shared `visited` set threaded through;
    fuel-based recursion (the fuel passed by the callers strictly exceeds
    every possible recursion depth, so the zero case is never reached). -/
def gtdAux (tc : String → List String) : Nat → String → List String → List String × List String
  | 0, _, visited => ([], visited)
  | Nat.succ f, nid, visited =>
    if visited.contains nid then ([], visited)
    else
      let visited1 := nid :: visited
      let children := tc nid
      let folded := children.foldl
        (fun (acc : List String × List String) c =>
          let out := gtdAux tc f c acc.2
          (acc.1 ++ out.1, out.2))
        (([] : List String), visited1)
      (children ++ folded.1, folded.2)

/-- `getTreeDescendants(nodeId)` with a fresh visited set, as called from
    `repositionChild`. -/
def getTreeDescendants (tc : String → List String) (fuel : Nat) (nid : String) : List String :=
  (gtdAux tc fuel nid []).1

/-- `repositionChild`: move a side child to its new position and shift
    every recorded tree descendant by the same delta. -/
def repositionChild (gtd : String → List String) (pm : PosMap) (childId : String) (newPos : Pt) : PosMap :=
  let oldPos := pm childId
  let dx := newPos.x - oldPos.x
  let dy := newPos.y - oldPos.y
  let pm1 : PosMap := fun k => if k = childId then newPos else pm k
  (gtd childId).foldl (fun m d => fun k => if k = d then ⟨(m d).x + dx, (m d).y + dy⟩ else m k) pm1

/-- `sideChildrenByParent[nid]`: the left/right child lists of a parent. -/
structure SideLists where
  left : List String := []
  right : List String := []
deriving DecidableEq, Repr

/-- Group the side edges of one parent by the anchor used: the JS loop
    pushes each side edge's target into the `left` or `right` list in edge
    order, and a parent with no side edge has no entry at all. -/
def sideChildrenByParent (sideEdges : List Edge) (nid : String) : Option SideLists :=
  let rel := sideEdges.filter fun e => e.source = nid
  if rel.isEmpty then none
  else
    some
      { left := (rel.filter fun e => e.targetHandle = some "target-left").map fun e => e.target
        right := (rel.filter fun e => !(e.targetHandle = some "target-left")).map fun e => e.target }

/-- The stacked y coordinate of the i-th side child under a parent at
    `py`: `parentPos.y + PERSON_NODE_HEIGHT + SIDE_START_Y +
    i * (PERSON_NODE_HEIGHT + SIDE_STACK_GAP_Y)`. -/
def sideY (py : Int) (i : Nat) : Int :=
  py + PERSON_NODE_HEIGHT + SIDE_START_Y + (i : Int) * (PERSON_NODE_HEIGHT + SIDE_STACK_GAP_Y)

/-- One `forEach((childId, i) => repositionChild(...))` loop of the side
    placement, with the running index made explicit. -/
def placeStack (gtd : String → List String) (x py : Int) : Nat → PosMap → List String → PosMap
  | _, pm, [] => pm
  | i, pm, c :: cs => placeStack gtd x py (i + 1) (repositionChild gtd pm c ⟨x, sideY py i⟩) cs

/-- The body of the per-parent side placement inside autoLayout: children
    on the `right` anchor go to the parent's LEFT (x - SIDE_OFFSET_X),
    children on the `left` anchor to the parent's RIGHT (x + SIDE_OFFSET_X),
    both stacked below the parent; the parent position is captured once
    before either loop. -/
def processSideParent (gtd : String → List String) (scbp : String → Option SideLists)
    (pm : PosMap) (nid : String) : PosMap :=
  match scbp nid with
  | none => pm
  | some sides =>
    let parentPos := pm nid
    let pm1 := placeStack gtd (parentPos.x - SIDE_OFFSET_X) parentPos.y 0 pm sides.right
    placeStack gtd (parentPos.x + SIDE_OFFSET_X) parentPos.y 0 pm1 sides.left

/-- The BFS over ALL person-to-person edges used to build `processOrder`
    (fuel-based; the fuel passed strictly exceeds the possible number of
    loop iterations). A popped id already visited is skipped; otherwise it
    is appended to the order and its unvisited person targets enqueued. -/
def bfsLoop (edges : List Edge) (personIds : List String) :
    Nat → List String → List String → List String
  | 0, _, _ => []
  | Nat.succ _, [], _ => []
  | Nat.succ f, nid :: queue, visited =>
    if visited.contains nid then bfsLoop edges personIds f queue visited
    else
      let visited1 := nid :: visited
      let next := (edges.filter fun e =>
        e.source = nid && personIds.contains e.target && !visited1.contains e.target).map
        fun e => e.target
      nid :: bfsLoop edges personIds f (queue ++ next) visited1

/-- The tree roots: person nodes with no incoming person-to-person edge
    of any kind. -/
def layoutRoots (personIds : List String) (edges : List Edge) : List String :=
  personIds.filter fun i => !edges.any fun e => e.target = i && personIds.contains e.source

/-- The full `processOrder`: BFS from the roots, then every person id not
    visited (cycles, isolated nodes) appended in node order. -/
def processOrderOf (personIds : List String) (edges : List Edge) : List String :=
  let roots := layoutRoots personIds edges
  let order := bfsLoop edges personIds (personIds.length + edges.length + 2) roots []
  order ++ personIds.filter fun i => !order.contains i

/-- The node registration sizes fed to dagre: a node that is exclusively a
    side child (side-edge target with no tree parent) gets a negligible
    1-by-1 footprint, every other person the full card size. -/
def dagreNodesOf (personIds : List String) (edges : List Edge) : List (String × Int × Int) :=
  let treeEdges := treeEdgesOf personIds edges
  let sideChildIds := (sideEdgesOf personIds edges).map fun e => e.target
  personIds.map fun i =>
    if sideChildIds.contains i && !treeEdges.any fun e => e.target = i then (i, 1, 1)
    else (i, PERSON_NODE_WIDTH, PERSON_NODE_HEIGHT)

/-- The whole position pipeline of autoLayout, which reads nothing of the
    nodes but the ordered person id list (and the edge list): dagre on the
    tree edges gives the initial top-left positions, then the side
    children are placed parent by parent in process order. -/
def layoutPosMap (D : DagreFn) (personIds : List String) (edges : List Edge) : PosMap :=
  let treeEdges := treeEdgesOf personIds edges
  let sideEdges := sideEdgesOf personIds edges
  let centers := D (dagreNodesOf personIds edges) (treeEdges.map fun e => (e.source, e.target))
  let pm0 : PosMap := fun i =>
    ⟨(centers i).x - PERSON_NODE_WIDTH / 2, (centers i).y - PERSON_NODE_HEIGHT / 2⟩
  let tc := treeChildrenOf treeEdges
  let gtd := getTreeDescendants tc (personIds.length + treeEdges.length + 2)
  let scbp := sideChildrenByParent sideEdges
  (processOrderOf personIds edges).foldl (processSideParent gtd scbp) pm0

/-- `autoLayout` from useFlowStore.js, restricted to its node-list result
    (the store write goes through one temporal `set`): empty graph is a
    no-op; sections keep their place; every person gets the pipeline
    position; the new list is sections then persons. -/
def autoLayoutNodes (D : DagreFn) (nodes : List Node) (edges : List Edge) : List Node :=
  if nodes.isEmpty then nodes
  else
    let personNodes := nodes.filter fun n => n.nodeType = "person"
    let sectionNodes := nodes.filter fun n => n.nodeType = "section"
    let pm := layoutPosMap D (personNodes.map fun n => n.id) edges
    sectionNodes ++ personNodes.map fun n => { n with position := pm n.id }

/-- The store-level `autoLayout` operation (single committed mutation). -/
def autoLayoutOp (D : DagreFn) (s : Store) : Store :=
  if s.app.nodes.isEmpty then s
  else tempSet (fun a => { a with nodes := autoLayoutNodes D a.nodes a.edges }) s

/-- Modelled from the spec: the rank assignment of the external dagre
    library (not in src/) — longest path from the tree roots, fuel-bounded
    so that nodes caught in a cycle still get a rank. -/
def longestPathRank (es : List (String × String)) : Nat → String → Nat
  | 0, _ => 0
  | Nat.succ f, i =>
    ((es.filter fun e => e.2 = i).map fun e => longestPathRank es f e.1 + 1).foldl max 0

/-- Modelled from the spec: a concrete instance of the external dagre
    layered layout (spec section 4.3 step 2) used to evaluate witnesses
    and counterexamples — longest-path ranks, registration order within a
    rank, fixed rank/node separation and outer margins, centers returned.
    Crossing minimization is irrelevant to every property proved here. -/
def dagreModel : DagreFn := fun ns es =>
  let fuel := ns.length + 1
  let rk := longestPathRank es fuel
  fun i =>
    match ns.find? fun t => t.1 = i with
    | none => ⟨0, 0⟩
    | some t =>
      let r := rk i
      let row := ns.filter fun u => rk u.1 = r
      let before := row.takeWhile fun u => !(u.1 = i)
      let x := LAYOUT_MARGIN_X + before.foldl (fun a u => a + u.2.1 + LAYOUT_NODE_SEP) 0 + t.2.1 / 2
      let rowH := fun q => (ns.filter fun u => rk u.1 = q).foldl (fun a u => max a u.2.2) 0
      let y := LAYOUT_MARGIN_Y + ((List.range r).foldl (fun a q => a + rowH q + LAYOUT_RANK_SEP) 0) + t.2.2 / 2
      ⟨x, y⟩

/-- The app state written by a temporal set is the updated one, whatever
    the pause / equality branch taken. -/
theorem tempSet_app (f : AppState → AppState) (s : Store) : (tempSet f s).app = f s.app := by
  unfold tempSet
  split
  · rfl
  · dsimp only
    split <;> rfl

/-- A temporal set never touches the module-level batching vars. -/
theorem tempSet_vars (f : AppState → AppState) (s : Store) : (tempSet f s).vars = s.vars := by
  unfold tempSet
  split
  · rfl
  · dsimp only
    split <;> rfl

/-- A temporal set never touches the clipboard or the uuid counter. -/
theorem tempSet_clipboard (f : AppState → AppState) (s : Store) :
    (tempSet f s).clipboard = s.clipboard ∧ (tempSet f s).uuidCounter = s.uuidCounter := by
  unfold tempSet
  split
  · exact ⟨rfl, rfl⟩
  · dsimp only
    split <;> exact ⟨rfl, rfl⟩

/-- While the temporal middleware is paused, a set only replaces the app
    state. -/
theorem tempSet_paused (f : AppState → AppState) (s : Store) (h : s.temporal.paused = true) :
    tempSet f s = { s with app := f s.app } := by
  unfold tempSet
  simp [h]

/-- `sliceLast` keeps at most `k` elements. -/
theorem sliceLast_length_le (k : Nat) (l : List α) : (sliceLast k l).length ≤ k := by
  simp only [sliceLast, List.length_drop]
  omega

/-- A concrete person node used by the C3 failing input. -/
def c3Node : Node := { id := "a" }

/-- A concrete captured snapshot, as left behind by an interrupted drag
    or edit burst. -/
def c3Snap : Snapshot := ⟨[stripNode c3Node], []⟩

/-- The failing input of C3: batching state captured mid-gesture. -/
def c3Vars : BatchVars :=
  { preDrag := some c3Snap, editSnap := some c3Snap, editTimerPending := true }

/-- The failing store of C3. -/
def c3Store : Store := { app := { nodes := [c3Node] }, vars := c3Vars }

/-- C3: the claim states that resetFlow and loadFlow clear all pending
    batching state (captured pre-drag snapshot, captured pre-edit
    snapshot, pending edit timer). The code does neither: at a store with
    all three captured, both operations return with the batching vars
    fully intact, so a stale capture survives a reset or reload. -/
theorem C3_reset_load_keep_batching_state :
    (resetFlowOp c3Store).vars = c3Vars ∧
    (loadFlowOp (some {}) c3Store).vars = c3Vars ∧
    (loadFlowOp none c3Store).vars = c3Vars ∧
    c3Vars.preDrag ≠ none ∧ c3Vars.editSnap ≠ none ∧ c3Vars.editTimerPending = true := by
  refine ⟨?_, ?_, ?_, by decide, by decide, rfl⟩ <;> decide

/-- The store of the C8 counterexample: a single person node `a`;
    the id `ghost` matches no node. -/
def c8Store : Store := { app := { nodes := [c3Node] } }

/-- The C8 connection whose source matches no existing node. -/
def c8Conn : ConnParams := { source := "ghost", target := "a" }

/-- C8 counterexample: the claim states that a connect whose source or
    target id matches no existing node leaves the edge set unchanged. At
    a store whose only node is `a`, connecting from the nonexistent id
    `ghost` nevertheless appends the edge: the edge set changes. -/
theorem C8_counterexample :
    c8Store.app.nodes.all (fun n => !(n.id = "ghost")) = true ∧
    (onConnect c8Store c8Conn).app.edges = [onConnectEdge c8Store c8Conn] ∧
    (onConnect c8Store c8Conn).app.edges ≠ c8Store.app.edges := by
  refine ⟨rfl, by decide, by decide⟩

/-- C8 amended: `onConnect` performs no node-existence check (the edge
    helper never receives the node list). It is a silent no-op exactly
    when an endpoint id is nullish/empty or an identical connection
    already exists; otherwise the edge is appended, matching node or not. -/
theorem C8_onConnect_amended (s : Store) (c : ConnParams) :
    (c.source = "" ∨ c.target = "" → (onConnect s c).app.edges = s.app.edges) ∧
    (connectionExists (onConnectEdge s c) s.app.edges = true →
      (onConnect s c).app.edges = s.app.edges) ∧
    (¬c.source = "" → ¬c.target = "" →
      connectionExists (onConnectEdge s c) s.app.edges = false →
      (onConnect s c).app.edges = s.app.edges ++ [onConnectEdge s c]) := by
  have happ := tempSet_app
    (fun a => { a with edges := rfAddEdge (onConnectEdge s c) a.edges })
    { s with uuidCounter := s.uuidCounter + 1 }
  refine ⟨?_, ?_, ?_⟩
  · intro h
    show (tempSet _ _).app.edges = s.app.edges
    rw [happ]
    unfold rfAddEdge
    have : (onConnectEdge s c).source = "" ∨ (onConnectEdge s c).target = "" := h
    rcases this with h1 | h1 <;> simp [h1]
  · intro h
    show (tempSet _ _).app.edges = s.app.edges
    rw [happ]
    unfold rfAddEdge
    split
    · rfl
    · simp [h]
  · intro h1 h2 h3
    show (tempSet _ _).app.edges = s.app.edges ++ [onConnectEdge s c]
    rw [happ]
    unfold rfAddEdge
    have e1 : (onConnectEdge s c).source = c.source := rfl
    have e2 : (onConnectEdge s c).target = c.target := rfl
    rw [e1, e2]
    simp [h1, h2, h3]

/-- A second C8 store for the witness of the amended theorem. -/
def c8wStore : Store := { app := { nodes := [c3Node] } }

/-- An empty-source connection (nullish endpoint) for the C8 witness. -/
def c8wConnEmpty : ConnParams := { source := "", target := "a" }

/-- A normal connection for the C8 witness. -/
def c8wConn : ConnParams := { source := "a", target := "b" }

/-- Witness for the amended C8 theorem at concrete inputs. -/
theorem C8_onConnect_amended_witness :
    (onConnect c8wStore c8wConnEmpty).app.edges = c8wStore.app.edges ∧
    (onConnect c8wStore c8wConn).app.edges = c8wStore.app.edges ++ [onConnectEdge c8wStore c8wConn] := by
  constructor
  · exact (C8_onConnect_amended c8wStore c8wConnEmpty).1 (Or.inl rfl)
  · exact (C8_onConnect_amended c8wStore c8wConn).2.2 (by decide) (by decide) (by decide)

/-- C9: importFlow rejects every payload whose nodes or edges field is
    not an array — the alert fires and the whole store (nodes, edges,
    fileName, fileVersion, presets, and everything else) is unchanged —
    and on an accepted payload a missing presets field defaults to the
    empty list. -/
theorem C9_importFlow_shape (p : ImportPayload) (conf : Bool) (s : Store) :
    (p.nodes = ArrField.notArr ∨ p.edges = ArrField.notArr →
      importFlowLoad p conf s = ⟨s, true, false⟩) ∧
    (∀ ns es, p.nodes = ArrField.arr ns → p.edges = ArrField.arr es → conf = true →
      p.presets = none → (importFlowLoad p conf s).store.app.presets = []) := by
  constructor
  · intro h
    unfold importFlowLoad
    rcases hn : p.nodes with ns | _
    · rcases he : p.edges with es | _
      · rcases h with h | h
        · rw [hn] at h
          exact absurd h (by simp)
        · rw [he] at h
          exact absurd h (by simp)
      · rfl
    · rcases p.edges with es | _ <;> rfl
  · intro ns es hn he hc hp
    unfold importFlowLoad
    rw [hn, he, hc]
    simp only [if_true]
    rw [tempSet_app]
    simp [hp]

/-- A rejected import payload for the C9 witness (object where the node
    array should be). -/
def c9Bad : ImportPayload := { nodes := ArrField.notArr, edges := ArrField.arr [] }

/-- An accepted import payload with no presets field for the C9 witness. -/
def c9Good : ImportPayload := { nodes := ArrField.arr [c3Node], edges := ArrField.arr [] }

/-- A store with existing content for the C9 witness. -/
def c9Store : Store := { app := { nodes := [c3Node], presets := [{ id := "p1" }] } }

/-- Witness for C9 at concrete inputs: the malformed payload is rejected
    with no state change, the accepted one defaults presets to []. -/
theorem C9_importFlow_shape_witness :
    importFlowLoad c9Bad true c9Store = ⟨c9Store, true, false⟩ ∧
    (importFlowLoad c9Good true c9Store).store.app.presets = [] := by
  constructor
  · exact (C9_importFlow_shape c9Bad true c9Store).1 (Or.inl rfl)
  · exact (C9_importFlow_shape c9Good true c9Store).2 [c3Node] [] rfl rfl rfl rfl

/-- C10: after loadFlow or importFlow every stored edge carries explicit
    handle ids — a nullish sourceHandle becomes `source-bottom`, a nullish
    targetHandle becomes `target-top` — and a migrated edge is classified
    as a side (lateral) edge by autoLayout exactly when it explicitly
    carried a side target handle, hence hierarchical otherwise. -/
theorem C10_migrated_handles :
    (∀ e : Edge, (migrateEdge1 e).sourceHandle.isSome = true ∧
      (migrateEdge1 e).targetHandle.isSome = true) ∧
    (∀ e : Edge, e.sourceHandle = none → (migrateEdge1 e).sourceHandle = some "source-bottom") ∧
    (∀ e : Edge, e.targetHandle = none → (migrateEdge1 e).targetHandle = some "target-top") ∧
    (∀ e : Edge, isSideEdge (migrateEdge1 e) =
      (e.targetHandle = some "target-left" || e.targetHandle = some "target-right")) ∧
    (∀ pl s, (loadFlowOp (some pl) s).app.edges = migrateEdges (pl.edges.getD [])) ∧
    (∀ (ns : List Node) (es : List Edge) (meta : Option ImportMeta)
        (pr : Option (List Preset)) (s : Store),
      (importFlowLoad ⟨ArrField.arr ns, ArrField.arr es, meta, pr⟩ true s).store.app.edges =
        migrateEdges es) := by
  refine ⟨fun e => ⟨rfl, rfl⟩, fun e h => ?_, fun e h => ?_, fun e => ?_, fun pl s => ?_, ?_⟩
  · simp [migrateEdge1, h, jsOr]
  · simp [migrateEdge1, h, jsOr]
  · rcases he : e.targetHandle with _ | th
    · simp [migrateEdge1, isSideEdge, targetHandleOf, he, jsOr]
    · by_cases hth : th = ""
      · simp [migrateEdge1, isSideEdge, targetHandleOf, he, hth, jsOr]
      · simp only [migrateEdge1, isSideEdge, targetHandleOf, he, jsOr, hth, if_false]
        by_cases h1 : th = "target-left" <;> by_cases h2 : th = "target-right" <;>
          simp [h1, h2]
  · show (loadFlowOp (some pl) s).app.edges = _
    unfold loadFlowOp
    dsimp only
    rw [tempSet_app]
  · intro ns es meta pr s
    unfold importFlowLoad
    dsimp only
    rw [if_pos rfl, tempSet_app]

/-- A raw edge with nullish handles for the C10 witness. -/
def c10Edge : Edge := { id := "e", source := "a", target := "b" }

/-- A stored payload carrying that raw edge, for the C10 witness. -/
def c10Payload : StoredPayload := { edges := some [c10Edge] }

/-- Witness for C10 at concrete inputs: the nullish handles of a loaded
    edge become the explicit defaults and the edge is hierarchical. -/
theorem C10_migrated_handles_witness :
    (migrateEdge1 c10Edge).sourceHandle = some "source-bottom" ∧
    (migrateEdge1 c10Edge).targetHandle = some "target-top" ∧
    isSideEdge (migrateEdge1 c10Edge) = false ∧
    (loadFlowOp (some c10Payload) ({} : Store)).app.edges = migrateEdges [c10Edge] := by
  refine ⟨?_, ?_, ?_, ?_⟩
  · exact (C10_migrated_handles).2.1 c10Edge rfl
  · exact (C10_migrated_handles).2.2.1 c10Edge rfl
  · have h := (C10_migrated_handles).2.2.2.1 c10Edge
    simpa using h
  · exact (C10_migrated_handles).2.2.2.2.1 c10Payload {}

/-- When a pre-drag snapshot is already captured the drag-start capture
    is skipped. -/
theorem captureIfDragStart_some (d : Bool) (s : Store) (snap : Snapshot)
    (h : s.vars.preDrag = some snap) : captureIfDragStart d s = s := by
  unfold captureIfDragStart
  simp [h]

/-- The drag commit, spelled out, when a pre-drag snapshot is captured
    and the drag ended. -/
theorem commitDragIfEnded_some (s : Store) (snap : Snapshot)
    (h : s.vars.preDrag = some snap) :
    commitDragIfEnded true s =
      { s with
        temporal :=
          { pastStates := sliceLast (UNDO_LIMIT - 1) s.temporal.pastStates ++ [snap]
            futureStates := []
            paused := false }
        vars := { s.vars with preDrag := none } } := by
  unfold commitDragIfEnded
  rw [h]
  rfl

/-- C2: after every operation that commits a history entry — a drag
    release, a text-edit commit, or any tracked discrete mutation through
    the temporal set — the past stack is the trimmed-from-the-front
    (oldest first) previous past plus the new entry, holds at most
    UNDO_LIMIT = 50 snapshots, and the future stack is empty; undo is the
    only transition that populates the future stack, redo only consumes
    from it, and reset/load clear it. -/
theorem C2_history_bounds :
    (∀ (s : Store) (cs : List NodeChange) (snap : Snapshot),
      s.vars.preDrag = some snap → s.temporal.paused = true → hasDragEnd cs = true →
        (onNodesChange s cs).temporal.pastStates =
          sliceLast (UNDO_LIMIT - 1) s.temporal.pastStates ++ [snap] ∧
        (onNodesChange s cs).temporal.pastStates.length ≤ UNDO_LIMIT ∧
        (onNodesChange s cs).temporal.futureStates = []) ∧
    (∀ (s : Store) (snap : Snapshot), s.vars.editSnap = some snap →
        (editTimerFire s).temporal.pastStates =
          sliceLast (UNDO_LIMIT - 1) s.temporal.pastStates ++ [snap] ∧
        (editTimerFire s).temporal.pastStates.length ≤ UNDO_LIMIT ∧
        (editTimerFire s).temporal.futureStates = []) ∧
    (∀ (f : AppState → AppState) (s : Store),
      s.temporal.paused = false → ¬stripApp (f s.app) = stripApp s.app →
        (tempSet f s).temporal.pastStates =
          sliceLast UNDO_LIMIT (s.temporal.pastStates ++ [stripApp s.app]) ∧
        (tempSet f s).temporal.pastStates.length ≤ UNDO_LIMIT ∧
        (tempSet f s).temporal.futureStates = []) ∧
    (∀ (s : Store) (snap : Snapshot), s.temporal.pastStates.getLast? = some snap →
        (undoOp s).temporal.futureStates =
          sliceLast UNDO_LIMIT (s.temporal.futureStates ++ [stripApp s.app])) ∧
    (∀ s : Store, (redoOp s).temporal.futureStates.length ≤ s.temporal.futureStates.length) ∧
    (∀ s : Store, (resetFlowOp s).temporal.futureStates = []) ∧
    (∀ (p : Option StoredPayload) (s : Store), (loadFlowOp p s).temporal.futureStates = []) := by
  refine ⟨?_, ?_, ?_, ?_, ?_, ?_, ?_⟩
  · intro s cs snap hsnap hpause hend
    unfold onNodesChange
    dsimp only
    rw [captureIfDragStart_some _ _ _ hsnap, tempSet_paused _ _ hpause, hend]
    have hc := commitDragIfEnded_some
      { s with app := { s.app with
          nodes := (applyNodeChangesModel cs s.app.nodes).map zIndexPass } } snap hsnap
    rw [hc]
    refine ⟨rfl, ?_, rfl⟩
    have hle := sliceLast_length_le (UNDO_LIMIT - 1) s.temporal.pastStates
    simp only [List.length_append, List.length_cons, List.length_nil]
    unfold UNDO_LIMIT at hle ⊢
    omega
  · intro s snap hsnap
    unfold editTimerFire
    rw [hsnap]
    refine ⟨rfl, ?_, rfl⟩
    have hle := sliceLast_length_le (UNDO_LIMIT - 1) s.temporal.pastStates
    simp only [List.length_append, List.length_cons, List.length_nil]
    unfold UNDO_LIMIT at hle ⊢
    omega
  · intro f s hpause hne
    unfold tempSet
    dsimp only
    rw [if_neg (by simp [hpause]), if_neg hne]
    exact ⟨rfl, sliceLast_length_le _ _, rfl⟩
  · intro s snap hsnap
    unfold undoOp
    rw [hsnap]
  · intro s
    unfold redoOp
    rcases h : s.temporal.futureStates.getLast? with _ | snap
    · simp
    · simp [List.length_dropLast]
  · intro s
    rfl
  · intro p s
    rfl

/-- A node for the C2 witness fixtures. -/
def c2Node : Node := { id := "n2" }

/-- A captured snapshot for the C2 witness fixtures. -/
def c2Snap : Snapshot := ⟨[stripNode c2Node], []⟩

/-- A mid-gesture store (paused, snapshots captured, one entry in each
    stack) for the C2 witness. -/
def c2StoreA : Store :=
  { app := {}
    temporal := { pastStates := [c2Snap], futureStates := [c2Snap], paused := true }
    vars := { preDrag := some c2Snap, editSnap := some c2Snap } }

/-- A release change list for the C2 witness. -/
def c2Rel : List NodeChange := [NodeChange.position "n2" none (some false)]

/-- An idle store for the discrete-mutation part of the C2 witness. -/
def c2StoreB : Store := {}

/-- A discrete mutation for the C2 witness. -/
def c2f : AppState → AppState := fun a => { a with nodes := [c2Node] }

/-- Witness for C2 at concrete inputs. -/
theorem C2_history_bounds_witness :
    (onNodesChange c2StoreA c2Rel).temporal.pastStates =
      sliceLast (UNDO_LIMIT - 1) c2StoreA.temporal.pastStates ++ [c2Snap] ∧
    (onNodesChange c2StoreA c2Rel).temporal.futureStates = [] ∧
    (editTimerFire c2StoreA).temporal.futureStates = [] ∧
    (tempSet c2f c2StoreB).temporal.pastStates.length ≤ UNDO_LIMIT ∧
    (tempSet c2f c2StoreB).temporal.futureStates = [] ∧
    (undoOp c2StoreA).temporal.futureStates =
      sliceLast UNDO_LIMIT (c2StoreA.temporal.futureStates ++ [stripApp c2StoreA.app]) := by
  have h := C2_history_bounds
  have h1 := h.1 c2StoreA c2Rel c2Snap rfl rfl (by decide)
  have h2 := h.2.1 c2StoreA c2Snap rfl
  have h3 := h.2.2.1 c2f c2StoreB rfl (by decide)
  have h4 := h.2.2.2.1 c2StoreA c2Snap rfl
  exact ⟨h1.1, h1.2.2, h2.2.2, h3.2.1, h3.2.2, h4⟩

/-- The drag commit is skipped when the drag did not end. -/
theorem commitDragIfEnded_noend (s : Store) (snap : Snapshot)
    (h : s.vars.preDrag = some snap) : commitDragIfEnded false s = s := by
  unfold commitDragIfEnded
  rw [h]
  rfl

/-- An intermediate (non-release) onNodesChange call while a pre-drag
    snapshot is captured and the middleware is paused only rewrites the
    node list. -/
theorem onNodesChange_mid_eq (s : Store) (cs : List NodeChange) (snap : Snapshot)
    (hsome : s.vars.preDrag = some snap) (hpause : s.temporal.paused = true)
    (hE : hasDragEnd cs = false) :
    onNodesChange s cs =
      { s with app := { s.app with
          nodes := (applyNodeChangesModel cs s.app.nodes).map zIndexPass } } := by
  unfold onNodesChange
  dsimp only
  rw [captureIfDragStart_some _ _ _ hsome, tempSet_paused _ _ hpause, hE]
  have hc := commitDragIfEnded_noend
    { s with app := { s.app with
        nodes := (applyNodeChangesModel cs s.app.nodes).map zIndexPass } } snap hsome
  rw [hc]

/-- The first drag frame from a clean state captures the pre-drag
    snapshot, pauses, and rewrites the node list. -/
theorem onNodesChange_start_eq (s : Store) (cs : List NodeChange)
    (h0 : s.vars.preDrag = none) (hT : hasDragTrue cs = true) (hE : hasDragEnd cs = false) :
    onNodesChange s cs =
      { s with
        app := { s.app with
          nodes := (applyNodeChangesModel cs s.app.nodes).map zIndexPass }
        vars := { s.vars with preDrag := some (stripApp s.app) }
        temporal := { s.temporal with paused := true } } := by
  unfold onNodesChange captureIfDragStart
  dsimp only
  rw [hT, h0]
  simp only [Option.isNone_none, Bool.and_self, if_true]
  rw [tempSet_paused _ _ rfl, hE, commitDragIfEnded_noend _ (stripApp s.app) rfl]

/-- A release frame while a pre-drag snapshot is captured commits exactly
    that snapshot, empties the future stack and clears the capture. -/
theorem onNodesChange_release_eq (s : Store) (cs : List NodeChange) (snap : Snapshot)
    (hsome : s.vars.preDrag = some snap) (hpause : s.temporal.paused = true)
    (hE : hasDragEnd cs = true) :
    onNodesChange s cs =
      { s with
        app := { s.app with
          nodes := (applyNodeChangesModel cs s.app.nodes).map zIndexPass }
        temporal :=
          { pastStates := sliceLast (UNDO_LIMIT - 1) s.temporal.pastStates ++ [snap]
            futureStates := []
            paused := false }
        vars := { s.vars with preDrag := none } } := by
  unfold onNodesChange
  dsimp only
  rw [captureIfDragStart_some _ _ _ hsome, tempSet_paused _ _ hpause, hE]
  have hc := commitDragIfEnded_some
    { s with app := { s.app with
        nodes := (applyNodeChangesModel cs s.app.nodes).map zIndexPass } } snap hsome
  rw [hc]

/-- The mid-drag invariant relative to the pre-drag store: the captured
    snapshot is the stripped pre-drag state, the middleware is paused, and
    both history stacks are untouched. -/
def midDrag (s0 s : Store) : Prop :=
  s.vars.preDrag = some (stripApp s0.app) ∧ s.temporal.paused = true ∧
  s.temporal.pastStates = s0.temporal.pastStates ∧
  s.temporal.futureStates = s0.temporal.futureStates

/-- The first drag frame establishes the mid-drag invariant. -/
theorem midDrag_start (s0 : Store) (cs : List NodeChange)
    (h0 : s0.vars.preDrag = none) (hT : hasDragTrue cs = true) (hE : hasDragEnd cs = false) :
    midDrag s0 (onNodesChange s0 cs) := by
  rw [onNodesChange_start_eq s0 cs h0 hT hE]
  exact ⟨rfl, rfl, rfl, rfl⟩

/-- Every further dragging frame preserves the mid-drag invariant. -/
theorem midDrag_step (s0 s : Store) (cs : List NodeChange)
    (hm : midDrag s0 s) (hE : hasDragEnd cs = false) :
    midDrag s0 (onNodesChange s cs) := by
  obtain ⟨h1, h2, h3, h4⟩ := hm
  rw [onNodesChange_mid_eq s cs _ h1 h2 hE]
  exact ⟨h1, h2, h3, h4⟩

/-- The mid-drag invariant is preserved by any list of dragging frames. -/
theorem midDrag_fold (s0 : Store) (frames : List (List NodeChange))
    (hf : ∀ cs ∈ frames, hasDragTrue cs = true ∧ hasDragEnd cs = false) :
    ∀ s, midDrag s0 s → midDrag s0 (frames.foldl onNodesChange s) := by
  induction frames with
  | nil => intro s hm; exact hm
  | cons c cs ih =>
    intro s hm
    have hc := hf c (List.mem_cons_self c cs)
    exact ih (fun x hx => hf x (List.mem_cons_of_mem c hx)) _ (midDrag_step s0 s c hm hc.2)

/-- C1: a drag gesture of K >= 1 dragging frames followed by a release
    pushes exactly one entry onto the past stack — the volatile-field-
    stripped snapshot of the pre-drag state, appended to the (trimmed)
    previous past — and clears the future stack, while every intermediate
    frame leaves both stacks untouched; the capture is cleared at the end. -/
theorem C1_drag_single_entry (s0 : Store) (frames : List (List NodeChange))
    (release : List NodeChange)
    (h0 : s0.vars.preDrag = none) (hne : frames ≠ [])
    (hf : ∀ cs ∈ frames, hasDragTrue cs = true ∧ hasDragEnd cs = false)
    (hr : hasDragEnd release = true) :
    (∀ k, k ≤ frames.length →
      ((frames.take k).foldl onNodesChange s0).temporal.pastStates =
        s0.temporal.pastStates ∧
      ((frames.take k).foldl onNodesChange s0).temporal.futureStates =
        s0.temporal.futureStates) ∧
    (onNodesChange (frames.foldl onNodesChange s0) release).temporal.pastStates =
      sliceLast (UNDO_LIMIT - 1) s0.temporal.pastStates ++ [stripApp s0.app] ∧
    (onNodesChange (frames.foldl onNodesChange s0) release).temporal.futureStates = [] ∧
    (onNodesChange (frames.foldl onNodesChange s0) release).vars.preDrag = none := by
  rcases frames with _ | ⟨c, cs⟩
  · exact absurd rfl hne
  have hc := hf c (List.mem_cons_self c cs)
  have hcs : ∀ x ∈ cs, hasDragTrue x = true ∧ hasDragEnd x = false :=
    fun x hx => hf x (List.mem_cons_of_mem c hx)
  have hstart : midDrag s0 (onNodesChange s0 c) := midDrag_start s0 c h0 hc.1 hc.2
  have hmid : midDrag s0 ((c :: cs).foldl onNodesChange s0) := by
    rw [List.foldl_cons]
    exact midDrag_fold s0 cs hcs _ hstart
  constructor
  · intro k hk
    cases k with
    | zero => exact ⟨rfl, rfl⟩
    | succ k =>
      rw [List.take_succ_cons, List.foldl_cons]
      have hm : midDrag s0 ((cs.take k).foldl onNodesChange (onNodesChange s0 c)) :=
        midDrag_fold s0 (cs.take k)
          (fun x hx => hcs x (List.take_subset k cs hx)) _ hstart
      exact ⟨hm.2.2.1, hm.2.2.2⟩
  · obtain ⟨h1, h2, h3, h4⟩ := hmid
    rw [onNodesChange_release_eq _ release _ h1 h2 hr]
    refine ⟨?_, rfl, rfl⟩
    dsimp only
    rw [h3]

/-- The node of the C1 witness. -/
def c1Node : Node := { id := "n1" }

/-- The pre-drag store of the C1 witness. -/
def c1Store : Store := { app := { nodes := [c1Node] } }

/-- Two intermediate dragging frames for the C1 witness. -/
def c1Frames : List (List NodeChange) :=
  [[NodeChange.position "n1" (some ⟨10, 10⟩) (some true)],
   [NodeChange.position "n1" (some ⟨20, 20⟩) (some true)]]

/-- The release frame of the C1 witness. -/
def c1Release : List NodeChange := [NodeChange.position "n1" none (some false)]

/-- Witness for C1 at a concrete two-frame drag. -/
theorem C1_drag_single_entry_witness :
    (onNodesChange (c1Frames.foldl onNodesChange c1Store) c1Release).temporal.pastStates =
      sliceLast (UNDO_LIMIT - 1) c1Store.temporal.pastStates ++ [stripApp c1Store.app] ∧
    (onNodesChange (c1Frames.foldl onNodesChange c1Store) c1Release).temporal.futureStates = [] ∧
    (onNodesChange (c1Frames.foldl onNodesChange c1Store) c1Release).vars.preDrag = none := by
  have h := C1_drag_single_entry c1Store c1Frames c1Release rfl (by decide) (by decide) rfl
  exact ⟨h.2.1, h.2.2.1, h.2.2.2⟩

/-- The modelled uuid supply is injective. -/
theorem uuidModel_inj (a b : Nat) (h : uuidModel a = uuidModel b) : a = b := by
  unfold uuidModel at h
  have h2 := congrArg String.data h
  dsimp only at h2
  have h3 := congrArg List.length h2
  simpa using h3

/-- Filtering an enumerated list by an id that no element carries gives
    nothing. -/
theorem enumFrom_filter_id_nil (l : List Node) (a : String) :
    ∀ n : Nat, (∀ x ∈ l, ¬x.id = a) →
      (List.enumFrom n l).filter (fun p => p.2.id = a) = [] := by
  induction l with
  | nil => intro n _; rfl
  | cons x xs ih =>
    intro n ha
    have hx : ¬x.id = a := ha x (List.mem_cons_self x xs)
    show ((n, x) :: List.enumFrom (n + 1) xs).filter (fun p => p.2.id = a) = []
    rw [List.filter_cons]
    simp only [hx, decide_False, if_false]
    exact ih (n + 1) fun y hy => ha y (List.mem_cons_of_mem x hy)

/-- With pairwise distinct ids, filtering the enumeration by a present id
    yields exactly the one indexed entry carrying it. -/
theorem enumFrom_filter_id_single (l : List Node) (a : String) :
    ∀ n : Nat, (l.map fun x => x.id).Nodup → a ∈ (l.map fun x => x.id) →
      ∃ i, ∃ hi : i < l.length,
        (List.enumFrom n l).filter (fun p => p.2.id = a) = [(n + i, l.get ⟨i, hi⟩)] ∧
        (l.get ⟨i, hi⟩).id = a := by
  induction l with
  | nil => intro n _ ha; simp at ha
  | cons x xs ih =>
    intro n hnd ha
    have hnd2 := List.nodup_cons.mp hnd
    by_cases hx : x.id = a
    · refine ⟨0, by simp, ?_, hx⟩
      show ((n, x) :: List.enumFrom (n + 1) xs).filter (fun p => p.2.id = a) =
        [(n + 0, (x :: xs).get ⟨0, by simp⟩)]
      rw [List.filter_cons]
      simp only [hx, decide_True, if_true]
      have htail : (List.enumFrom (n + 1) xs).filter (fun p => p.2.id = a) = [] := by
        refine enumFrom_filter_id_nil xs a (n + 1) fun y hy hya => ?_
        have hmem : (fun z : Node => z.id) y ∈ xs.map fun z => z.id :=
          List.mem_map_of_mem _ hy
        have hyx : (fun z : Node => z.id) y = (fun z : Node => z.id) x := by
          show y.id = x.id
          rw [hya, hx]
        rw [hyx] at hmem
        exact hnd2.1 hmem
      rw [htail]
      simp
    · have ha2 : a ∈ xs.map fun z => z.id := by
        rcases List.mem_cons.mp ha with h | h
        · exact absurd h.symm hx
        · exact h
      obtain ⟨i, hi, heq, hid⟩ := ih (n + 1) hnd2.2 ha2
      refine ⟨i + 1, Nat.succ_lt_succ hi, ?_, hid⟩
      show ((n, x) :: List.enumFrom (n + 1) xs).filter (fun p => p.2.id = a) = _
      rw [List.filter_cons]
      simp only [hx, decide_False, if_false]
      rw [heq]
      have harith : n + 1 + i = n + (i + 1) := by omega
      rw [harith]
      rfl

/-- Where the paste id map sends a clipboard node id: the uuid indexed by
    that node's position in the clipboard. -/
theorem pasteIdMapF_mem (s : Store) (a : String)
    (hnd : (s.clipboard.nodes.map fun n => n.id).Nodup)
    (ha : a ∈ s.clipboard.nodes.map fun n => n.id) :
    ∃ i, ∃ hi : i < s.clipboard.nodes.length,
      pasteIdMapF s a = uuidModel (s.uuidCounter + i) ∧
      (s.clipboard.nodes.get ⟨i, hi⟩).id = a := by
  obtain ⟨i, hi, heq, hid⟩ := enumFrom_filter_id_single s.clipboard.nodes a 0 hnd ha
  refine ⟨i, hi, ?_, hid⟩
  unfold pasteIdMapF
  rw [show s.clipboard.nodes.enum = List.enumFrom 0 s.clipboard.nodes from rfl, heq]
  simp

/-- The paste id map is injective on the clipboard node ids. -/
theorem pasteIdMapF_inj (s : Store)
    (hnd : (s.clipboard.nodes.map fun n => n.id).Nodup) (a b : String)
    (ha : a ∈ s.clipboard.nodes.map fun n => n.id)
    (hb : b ∈ s.clipboard.nodes.map fun n => n.id)
    (h : pasteIdMapF s a = pasteIdMapF s b) : a = b := by
  obtain ⟨i, hi, hea, hida⟩ := pasteIdMapF_mem s a hnd ha
  obtain ⟨j, hj, heb, hidb⟩ := pasteIdMapF_mem s b hnd hb
  rw [hea, heb] at h
  have hij : s.uuidCounter + i = s.uuidCounter + j := uuidModel_inj _ _ h
  have hij2 : i = j := by omega
  subst hij2
  rw [← hida, ← hidb]

/-- Mapping a function of the element only over an enumeration forgets
    the indices. -/
theorem enumFrom_map_snd_fn {α β : Type} (h : α → β) :
    ∀ (l : List α) (n : Nat), (List.enumFrom n l).map (fun p => h p.2) = l.map h
  | [], _ => rfl
  | x :: xs, n => by
    show h x :: (List.enumFrom (n + 1) xs).map (fun p => h p.2) = h x :: xs.map h
    rw [enumFrom_map_snd_fn h xs (n + 1)]

/-- The endpoints of the pasted edges are exactly the clipboard edges'
    endpoints pushed through the old-to-new id map. -/
theorem pasteNewEdges_endpoints (s : Store) :
    (pasteNewEdges s).map (fun e => (e.source, e.target)) =
      s.clipboard.edges.map fun e => (pasteIdMapF s e.source, pasteIdMapF s e.target) := by
  unfold pasteNewEdges
  rw [List.map_map]
  exact enumFrom_map_snd_fn
    (fun e => (pasteIdMapF s e.source, pasteIdMapF s e.target)) s.clipboard.edges 0

/-- One pasted node per clipboard node. -/
theorem pasteNewNodes_length (s : Store) :
    (pasteNewNodes s).length = s.clipboard.nodes.length := by
  unfold pasteNewNodes
  rw [List.length_map]
  exact List.enum_length

/-- One pasted edge per clipboard edge. -/
theorem pasteNewEdges_length (s : Store) :
    (pasteNewEdges s).length = s.clipboard.edges.length := by
  unfold pasteNewEdges
  rw [List.length_map]
  exact List.enum_length

/-- What copySelected leaves in the clipboard for a nonempty selection:
    the selected nodes and exactly the connections internal to them; the
    tracked state and the uuid counter are untouched. -/
theorem copySelected_clipboard (s : Store)
    (hsel : ¬(s.app.nodes.filter fun n => n.selected) = []) :
    (copySelected s).clipboard.nodes = s.app.nodes.filter (fun n => n.selected) ∧
    (copySelected s).clipboard.edges = s.app.edges.filter (fun e =>
      ((s.app.nodes.filter fun n => n.selected).map fun n => n.id).contains e.source &&
      ((s.app.nodes.filter fun n => n.selected).map fun n => n.id).contains e.target) ∧
    (copySelected s).app = s.app ∧
    (copySelected s).uuidCounter = s.uuidCounter := by
  unfold copySelected
  dsimp only
  rw [if_neg (by simpa [List.isEmpty_iff] using hsel)]
  exact ⟨rfl, rfl, rfl, rfl⟩

/-- C7: for a nonempty selection with distinct node ids, copy followed by
    paste inserts exactly one new node per copied node and one new edge
    per connection internal to the selection; the pasted edges' endpoints
    are the internal edges' endpoints pushed through the old-to-new id
    map, which is injective on the selected ids, so the endpoint topology
    is preserved; every clipboard edge has both endpoints selected, so
    connections leaving the selection are not copied and not pasted. -/
theorem C7_copy_paste (s : Store)
    (hsel : ¬(s.app.nodes.filter fun n => n.selected) = [])
    (hnd : ((s.app.nodes.filter fun n => n.selected).map fun n => n.id).Nodup) :
    (pasteClipboard (copySelected s)).app.nodes.length =
      s.app.nodes.length + (s.app.nodes.filter fun n => n.selected).length ∧
    (pasteClipboard (copySelected s)).app.edges.length =
      s.app.edges.length + (s.app.edges.filter (fun e =>
        ((s.app.nodes.filter fun n => n.selected).map fun n => n.id).contains e.source &&
        ((s.app.nodes.filter fun n => n.selected).map fun n => n.id).contains e.target)).length ∧
    (pasteClipboard (copySelected s)).app.edges =
      s.app.edges ++ pasteNewEdges (copySelected s) ∧
    (∀ e ∈ (copySelected s).clipboard.edges,
      ((s.app.nodes.filter fun n => n.selected).map fun n => n.id).contains e.source = true ∧
      ((s.app.nodes.filter fun n => n.selected).map fun n => n.id).contains e.target = true) ∧
    ((pasteNewEdges (copySelected s)).map fun e => (e.source, e.target)) =
      ((copySelected s).clipboard.edges.map fun e =>
        (pasteIdMapF (copySelected s) e.source, pasteIdMapF (copySelected s) e.target)) ∧
    (∀ a b, a ∈ ((s.app.nodes.filter fun n => n.selected).map fun n => n.id) →
      b ∈ ((s.app.nodes.filter fun n => n.selected).map fun n => n.id) →
      pasteIdMapF (copySelected s) a = pasteIdMapF (copySelected s) b → a = b) := by
  obtain ⟨hcn, hce, hca, hcu⟩ := copySelected_clipboard s hsel
  have hempty : ¬(copySelected s).clipboard.nodes.isEmpty = true := by
    rw [hcn]
    simpa [List.isEmpty_iff] using hsel
  have happ : (pasteClipboard (copySelected s)).app =
      { (copySelected s).app with
        nodes := (if decide (1 < (copySelected s).clipboard.nodes.length) then
            (copySelected s).app.nodes.map fun n => { n with selected := false }
          else (copySelected s).app.nodes) ++ pasteNewNodes (copySelected s)
        edges := (copySelected s).app.edges ++ pasteNewEdges (copySelected s) } := by
    unfold pasteClipboard
    rw [if_neg hempty]
    dsimp only
    rw [tempSet_app]
  refine ⟨?_, ?_, ?_, ?_, pasteNewEdges_endpoints _, ?_⟩
  · rw [happ]
    dsimp only
    rw [List.length_append, pasteNewNodes_length, hcn, hca]
    congr 1
    split
    · rw [List.length_map]
    · rfl
  · rw [happ]
    dsimp only
    rw [List.length_append, pasteNewEdges_length, hce, hca]
  · rw [happ]
    dsimp only
    rw [hca]
  · intro e he
    rw [hce] at he
    have hm := List.mem_filter.mp he
    exact ⟨(Bool.and_eq_true _ _ |>.mp hm.2).1, (Bool.and_eq_true _ _ |>.mp hm.2).2⟩
  · intro a b ha hb h
    refine pasteIdMapF_inj (copySelected s) ?_ a b ?_ ?_ h <;> rw [hcn] <;> assumption

/-- Selected node `a` of the C7 witness. -/
def c7NodeA : Node := { id := "a", selected := true }

/-- Selected node `b` of the C7 witness. -/
def c7NodeB : Node := { id := "b", position := ⟨50, 0⟩, selected := true }

/-- Unselected node `c` of the C7 witness. -/
def c7NodeC : Node := { id := "c" }

/-- Internal edge of the C7 witness (both endpoints selected). -/
def c7EdgeAB : Edge := { id := "e1", source := "a", target := "b" }

/-- External edge of the C7 witness (target not selected). -/
def c7EdgeAC : Edge := { id := "e2", source := "a", target := "c" }

/-- The C7 witness store. -/
def c7Store : Store :=
  { app := { nodes := [c7NodeA, c7NodeB, c7NodeC], edges := [c7EdgeAB, c7EdgeAC] } }

/-- Witness for C7 at a concrete selection of two nodes, one internal and
    one external connection. -/
theorem C7_copy_paste_witness :
    (pasteClipboard (copySelected c7Store)).app.nodes.length =
      c7Store.app.nodes.length +
        (c7Store.app.nodes.filter fun n => n.selected).length ∧
    (pasteClipboard (copySelected c7Store)).app.edges =
      c7Store.app.edges ++ pasteNewEdges (copySelected c7Store) := by
  have h := C7_copy_paste c7Store (by decide) (by decide)
  exact ⟨h.1, h.2.2.1⟩

/-- The descendant-shifting fold of repositionChild leaves keys outside
    the shifted list untouched. -/
theorem shiftFold_preserve (dx dy : Int) (k : String) :
    ∀ (l : List String) (m : PosMap), k ∉ l →
      (l.foldl (fun m d => fun x =>
        if x = d then ⟨(m d).x + dx, (m d).y + dy⟩ else m x) m) k = m k := by
  intro l
  induction l with
  | nil => intro m _; rfl
  | cons d ds ih =>
    intro m hk
    rw [List.foldl_cons]
    have hkd : ¬k = d := fun h => hk (h ▸ List.mem_cons_self d ds)
    have hkds : k ∉ ds := fun h => hk (List.mem_cons_of_mem d h)
    rw [ih _ hkds]
    simp [hkd]

/-- A repositioned child that is not its own tree descendant lands
    exactly on the requested position. -/
theorem repositionChild_at (gtd : String → List String) (pm : PosMap) (c : String) (p : Pt)
    (hc : c ∉ gtd c) : repositionChild gtd pm c p c = p := by
  unfold repositionChild
  rw [shiftFold_preserve _ _ c (gtd c) _ hc]
  simp

/-- Repositioning a child does not move a node that is neither the child
    nor one of its recorded tree descendants. -/
theorem repositionChild_other (gtd : String → List String) (pm : PosMap) (c : String) (p : Pt)
    (k : String) (h1 : ¬k = c) (h2 : k ∉ gtd c) :
    repositionChild gtd pm c p k = pm k := by
  unfold repositionChild
  rw [shiftFold_preserve _ _ k (gtd c) _ h2]
  simp [h1]

/-- A side-stack loop leaves untouched every node that is neither one of
    the stacked children nor a tree descendant of one. -/
theorem placeStack_other (gtd : String → List String) (x py : Int) :
    ∀ (cs : List String) (i : Nat) (pm : PosMap) (k : String),
      k ∉ cs → (∀ d ∈ cs, k ∉ gtd d) →
      placeStack gtd x py i pm cs k = pm k := by
  intro cs
  induction cs with
  | nil => intro i pm k _ _; rfl
  | cons c cs' ih =>
    intro i pm k hk hg
    show placeStack gtd x py (i + 1) (repositionChild gtd pm c ⟨x, sideY py i⟩) cs' k = pm k
    have hkc : ¬k = c := fun h => hk (h ▸ List.mem_cons_self c cs')
    have hkcs : k ∉ cs' := fun h => hk (List.mem_cons_of_mem c h)
    rw [ih (i + 1) _ k hkcs fun d hd => hg d (List.mem_cons_of_mem c hd)]
    exact repositionChild_other gtd pm c _ k hkc (hg c (List.mem_cons_self c cs'))

/-- In a side-stack loop over pairwise-unrelated distinct children, the
    j-th child ends exactly at the stacked position for index i + j. -/
theorem placeStack_at (gtd : String → List String) (x py : Int) :
    ∀ (cs : List String) (i : Nat) (pm : PosMap),
      cs.Nodup → (∀ c ∈ cs, ∀ d ∈ cs, c ∉ gtd d) →
      ∀ j, ∀ hj : j < cs.length,
        placeStack gtd x py i pm cs (cs.get ⟨j, hj⟩) = ⟨x, sideY py (i + j)⟩ := by
  intro cs
  induction cs with
  | nil =>
    intro i pm _ _ j hj
    exact absurd hj (by simp)
  | cons c cs' ih =>
    intro i pm hnd hg j hj
    obtain ⟨hc1, hc2⟩ := List.nodup_cons.mp hnd
    cases j with
    | zero =>
      show placeStack gtd x py (i + 1) (repositionChild gtd pm c ⟨x, sideY py i⟩) cs' c =
        ⟨x, sideY py (i + 0)⟩
      rw [placeStack_other gtd x py cs' (i + 1) _ c hc1
          fun d hd => hg c (List.mem_cons_self c cs') d (List.mem_cons_of_mem c hd)]
      rw [repositionChild_at gtd pm c _
          (hg c (List.mem_cons_self c cs') c (List.mem_cons_self c cs'))]
      rw [Nat.add_zero]
    | succ j' =>
      have hj' : j' < cs'.length := Nat.lt_of_succ_lt_succ hj
      show placeStack gtd x py (i + 1) (repositionChild gtd pm c ⟨x, sideY py i⟩) cs'
          (cs'.get ⟨j', hj'⟩) = ⟨x, sideY py (i + (j' + 1))⟩
      rw [ih (i + 1) _ hc2
          (fun a ha b hb => hg a (List.mem_cons_of_mem c ha) b (List.mem_cons_of_mem c hb))
          j' hj']
      have harith : i + 1 + j' = i + (j' + 1) := by omega
      rw [harith]

/-- C4: inside autoLayout's per-parent side placement, with the parent's
    side children pairwise distinct and none a recorded tree descendant
    of another, the i-th child attached via target anchor Right lands at
    x = parent.x - SIDE_OFFSET_X and the i-th child attached via target
    anchor Left at x = parent.x + SIDE_OFFSET_X, both at
    y = parent.y + PERSON_NODE_HEIGHT + SIDE_START_Y +
    i * (PERSON_NODE_HEIGHT + SIDE_STACK_GAP_Y). -/
theorem C4_side_placement (treeEdges sideEdges : List Edge) (fuel : Nat) (pm : PosMap)
    (nid : String) (sides : SideLists)
    (hs : sideChildrenByParent sideEdges nid = some sides)
    (hnd : (sides.right ++ sides.left).Nodup)
    (hdesc : ∀ c ∈ sides.right ++ sides.left, ∀ d ∈ sides.right ++ sides.left,
      c ∉ getTreeDescendants (treeChildrenOf treeEdges) fuel d) :
    (∀ j, ∀ hj : j < sides.right.length,
      processSideParent (getTreeDescendants (treeChildrenOf treeEdges) fuel)
          (sideChildrenByParent sideEdges) pm nid (sides.right.get ⟨j, hj⟩) =
        ⟨(pm nid).x - SIDE_OFFSET_X, sideY (pm nid).y j⟩) ∧
    (∀ j, ∀ hj : j < sides.left.length,
      processSideParent (getTreeDescendants (treeChildrenOf treeEdges) fuel)
          (sideChildrenByParent sideEdges) pm nid (sides.left.get ⟨j, hj⟩) =
        ⟨(pm nid).x + SIDE_OFFSET_X, sideY (pm nid).y j⟩) := by
  obtain ⟨hndR, hndL, hdisj⟩ := List.nodup_append.mp hnd
  constructor
  · intro j hj
    unfold processSideParent
    rw [hs]
    dsimp only
    have hmemR : sides.right.get ⟨j, hj⟩ ∈ sides.right := List.get_mem _ _ _
    rw [placeStack_other (getTreeDescendants (treeChildrenOf treeEdges) fuel)
        ((pm nid).x + SIDE_OFFSET_X) (pm nid).y sides.left 0 _ _
        (fun h => hdisj hmemR h)
        (fun d hd => hdesc _ (List.mem_append_left _ hmemR) d (List.mem_append_right _ hd))]
    have h := placeStack_at (getTreeDescendants (treeChildrenOf treeEdges) fuel)
      ((pm nid).x - SIDE_OFFSET_X) (pm nid).y sides.right 0 pm hndR
      (fun a ha b hb =>
        hdesc a (List.mem_append_left _ ha) b (List.mem_append_left _ hb)) j hj
    rw [h, Nat.zero_add]
  · intro j hj
    unfold processSideParent
    rw [hs]
    dsimp only
    have h := placeStack_at (getTreeDescendants (treeChildrenOf treeEdges) fuel)
      ((pm nid).x + SIDE_OFFSET_X) (pm nid).y sides.left 0
      (placeStack (getTreeDescendants (treeChildrenOf treeEdges) fuel)
        ((pm nid).x - SIDE_OFFSET_X) (pm nid).y 0 pm sides.right) hndL
      (fun a ha b hb =>
        hdesc a (List.mem_append_right _ ha) b (List.mem_append_right _ hb)) j hj
    rw [h, Nat.zero_add]

/-- Two side edges attached to parent `p` via the Right target anchor,
    for the C4 witness. -/
def c4SideEdges : List Edge :=
  [{ id := "s1", source := "p", target := "a", targetHandle := some "target-right" },
   { id := "s2", source := "p", target := "b", targetHandle := some "target-right" }]

/-- The side lists the grouping yields for parent `p` in the C4 witness. -/
def c4Sides : SideLists := { left := [], right := ["a", "b"] }

/-- The incoming position map of the C4 witness. -/
def c4Pm : PosMap := fun _ => ⟨100, 100⟩

/-- Witness for C4 at a concrete parent with two right-anchored children. -/
theorem C4_side_placement_witness :
    processSideParent (getTreeDescendants (treeChildrenOf ([] : List Edge)) 2)
        (sideChildrenByParent c4SideEdges) c4Pm "p" (c4Sides.right.get ⟨0, by decide⟩) =
      ⟨(c4Pm "p").x - SIDE_OFFSET_X, sideY (c4Pm "p").y 0⟩ ∧
    processSideParent (getTreeDescendants (treeChildrenOf ([] : List Edge)) 2)
        (sideChildrenByParent c4SideEdges) c4Pm "p" (c4Sides.right.get ⟨1, by decide⟩) =
      ⟨(c4Pm "p").x - SIDE_OFFSET_X, sideY (c4Pm "p").y 1⟩ := by
  have h := C4_side_placement [] c4SideEdges 2 c4Pm "p" c4Sides (by decide) (by decide)
    (by decide)
  exact ⟨h.1 0 (by decide), h.1 1 (by decide)⟩

/-- Filtering twice by the same predicate is filtering once. -/
theorem filter_idem (p : Node → Bool) (l : List Node) :
    (l.filter p).filter p = l.filter p :=
  List.filter_eq_self.mpr fun a ha => (List.mem_filter.mp ha).2

/-- Filtering by a predicate that excludes everything a first filter kept
    gives nothing. -/
theorem filter_excl (p q : Node → Bool) (h : ∀ n, p n = true → q n = false)
    (l : List Node) : (l.filter p).filter q = [] :=
  List.filter_eq_nil_iff.mpr fun a ha => by
    rw [h a (List.mem_filter.mp ha).2]
    exact Bool.false_ne_true

/-- Filtering commutes with mapping a function that preserves the
    predicate. -/
theorem filter_map_pres (p : Node → Bool) (g : Node → Node)
    (hp : ∀ n, p (g n) = p n) (l : List Node) :
    (l.map g).filter p = (l.filter p).map g := by
  have hcomp : p ∘ g = p := funext hp
  rw [List.filter_map, hcomp]

/-- Projecting ids through a map that preserves them changes nothing. -/
theorem map_id_pres (g : Node → Node) (hg : ∀ n, (g n).id = n.id) (l : List Node) :
    (l.map g).map (fun n => n.id) = l.map fun n => n.id := by
  rw [List.map_map]
  congr 1
  exact funext hg

/-- Writing the computed position into a node, as autoLayout does for
    every person node. -/
def layoutApply (pm : PosMap) (n : Node) : Node :=
  { n with position := pm n.id }

/-- The nonempty case of autoLayout, phrased through `layoutApply`. -/
theorem autoLayoutNodes_char (D : DagreFn) (ns : List Node) (es : List Edge)
    (h0 : ¬ns.isEmpty = true) :
    autoLayoutNodes D ns es =
      (ns.filter fun n => n.nodeType = "section") ++
        (ns.filter fun n => n.nodeType = "person").map
          (layoutApply (layoutPosMap D
            ((ns.filter fun n => n.nodeType = "person").map fun n => n.id) es)) := by
  unfold autoLayoutNodes
  rw [if_neg h0]
  rfl

/-- Sections survive the section filter of a second layout pass
    unchanged. -/
theorem out_filter_sec (ns : List Node) (pm : PosMap) :
    (((ns.filter fun n => n.nodeType = "section") ++
        (ns.filter fun n => n.nodeType = "person").map (layoutApply pm)).filter
      fun n => n.nodeType = "section") = ns.filter fun n => n.nodeType = "section" := by
  rw [List.filter_append,
    filter_map_pres (fun n => n.nodeType = "section") (layoutApply pm) (fun n => rfl),
    filter_excl (fun n => n.nodeType = "person") (fun n => n.nodeType = "section")
      (fun n hn => by
        simp only [decide_eq_true_eq] at hn
        simp [hn]) ns,
    filter_idem, List.map_nil, List.append_nil]

/-- The person filter of a second layout pass yields exactly the laid-out
    persons of the first. -/
theorem out_filter_per (ns : List Node) (pm : PosMap) :
    (((ns.filter fun n => n.nodeType = "section") ++
        (ns.filter fun n => n.nodeType = "person").map (layoutApply pm)).filter
      fun n => n.nodeType = "person") =
      (ns.filter fun n => n.nodeType = "person").map (layoutApply pm) := by
  rw [List.filter_append,
    filter_map_pres (fun n => n.nodeType = "person") (layoutApply pm) (fun n => rfl),
    filter_excl (fun n => n.nodeType = "section") (fun n => n.nodeType = "person")
      (fun n hn => by
        simp only [decide_eq_true_eq] at hn
        simp [hn]) ns,
    filter_idem, List.nil_append]

/-- The person id list a second layout pass feeds to dagre is the same as
    the first pass's. -/
theorem out_ids (ns : List Node) (pm : PosMap) :
    ((((ns.filter fun n => n.nodeType = "section") ++
        (ns.filter fun n => n.nodeType = "person").map (layoutApply pm)).filter
      fun n => n.nodeType = "person").map fun n => n.id) =
      (ns.filter fun n => n.nodeType = "person").map fun n => n.id := by
  rw [out_filter_per, map_id_pres (layoutApply pm) (fun n => rfl)]

/-- autoLayout reads no node position: its node-list result is a fixed
    point — running it a second time on its own output with the same
    edges reproduces that output exactly, for every dagre function. -/
theorem autoLayout_idem (D : DagreFn) (ns : List Node) (es : List Edge) :
    autoLayoutNodes D (autoLayoutNodes D ns es) es = autoLayoutNodes D ns es := by
  by_cases h0 : ns.isEmpty = true
  · have hns : autoLayoutNodes D ns es = ns := by
      unfold autoLayoutNodes
      rw [if_pos h0]
    rw [hns, hns]
  · rw [autoLayoutNodes_char D ns es h0]
    by_cases h1 : ((ns.filter fun n => n.nodeType = "section") ++
        (ns.filter fun n => n.nodeType = "person").map
          (layoutApply (layoutPosMap D
            ((ns.filter fun n => n.nodeType = "person").map fun n => n.id) es))).isEmpty = true
    · unfold autoLayoutNodes
      rw [if_pos h1]
    · rw [autoLayoutNodes_char D _ es h1, out_ids, out_filter_sec, out_filter_per,
        List.map_map]
      congr 1

/-- Fuel-bounded reachability along directed edge pairs (at least one
    step). -/
def reachesB (es : List (String × String)) : Nat → String → String → Bool
  | 0, _, _ => false
  | Nat.succ f, a, b => es.any fun e => e.1 = a && (e.2 = b || reachesB es f e.2 b)

/-- Decidable acyclicity of the hierarchical person-to-person edges: no
    person id reaches itself. -/
def treeAcyclicB (ids : List String) (edges : List Edge) : Bool :=
  ids.all fun i =>
    !reachesB ((treeEdgesOf ids edges).map fun e => (e.source, e.target)) (ids.length + 1) i i

/-- C6: on an acyclic graph whose every person-to-person connection has
    target anchor Top, autoLayout is idempotent — a second call with no
    intervening edits produces node positions identical to the first
    call's (for every dagre layout function; in fact the layout never
    reads the current positions, so the node list is a fixed point). -/
theorem C6_autoLayout_idempotent (D : DagreFn) (ns : List Node) (es : List Edge)
    (hacyclic : treeAcyclicB ((ns.filter fun n => n.nodeType = "person").map fun n => n.id)
      es = true)
    (htop : ∀ e ∈ personEdges ((ns.filter fun n => n.nodeType = "person").map fun n => n.id) es,
      targetHandleOf e = "target-top") :
    (autoLayoutNodes D (autoLayoutNodes D ns es) es).map (fun n => (n.id, n.position)) =
      (autoLayoutNodes D ns es).map fun n => (n.id, n.position) := by
  rw [autoLayout_idem]

/-- First node of the C6 witness chain. -/
def c6NodeA : Node := { id := "a" }

/-- Second node of the C6 witness chain. -/
def c6NodeB : Node := { id := "b", position := ⟨300, 100⟩ }

/-- The hierarchical connection of the C6 witness. -/
def c6Edge : Edge :=
  { id := "e", source := "a", target := "b",
    sourceHandle := some "source-bottom", targetHandle := some "target-top" }

/-- Witness for C6 on a concrete two-person chain under the modelled
    dagre function. -/
theorem C6_autoLayout_idempotent_witness :
    (autoLayoutNodes dagreModel
        (autoLayoutNodes dagreModel [c6NodeA, c6NodeB] [c6Edge]) [c6Edge]).map
      (fun n => (n.id, n.position)) =
      (autoLayoutNodes dagreModel [c6NodeA, c6NodeB] [c6Edge]).map
        fun n => (n.id, n.position) :=
  C6_autoLayout_idempotent dagreModel [c6NodeA, c6NodeB] [c6Edge] (by decide) (by decide)

/-- Forgetting a node's position (used to state that autoLayout is
    position-oblivious). -/
def erasePosition (n : Node) : Node :=
  { n with position := ⟨0, 0⟩ }

/-- Two node lists equal after erasing positions feed dagre the same
    person id list. -/
theorem erase_ids (ns1 ns2 : List Node)
    (h : ns1.map erasePosition = ns2.map erasePosition) :
    ((ns1.filter fun n => n.nodeType = "person").map fun n => n.id) =
      (ns2.filter fun n => n.nodeType = "person").map fun n => n.id := by
  have h1 : ∀ l : List Node,
      (((l.map erasePosition).filter fun n => n.nodeType = "person").map fun n => n.id) =
        (l.filter fun n => n.nodeType = "person").map fun n => n.id := by
    intro l
    rw [filter_map_pres (fun n => n.nodeType = "person") erasePosition (fun n => rfl),
      map_id_pres erasePosition (fun n => rfl)]
  have h2 := congrArg
    (fun l : List Node => (l.filter fun n => n.nodeType = "person").map fun n => n.id) h
  dsimp only at h2
  rw [h1 ns1, h1 ns2] at h2
  exact h2

/-- C5 amended: autoLayout does not keep any person node's previous
    position — the positions it assigns (to reachable AND unreachable
    person nodes alike) are computed purely from the node ids, kinds and
    edges: two states that agree after erasing every position get
    identical person positions, whatever the starting positions were. -/
theorem C5_amended_position_independence (D : DagreFn) (es : List Edge)
    (ns1 ns2 : List Node) (h : ns1.map erasePosition = ns2.map erasePosition) :
    ((autoLayoutNodes D ns1 es).filter fun n => n.nodeType = "person").map
      (fun n => (n.id, n.position)) =
      ((autoLayoutNodes D ns2 es).filter fun n => n.nodeType = "person").map
        fun n => (n.id, n.position) := by
  have hlen : ns1.length = ns2.length := by
    have := congrArg List.length h
    simpa using this
  by_cases h0 : ns1.isEmpty = true
  · have he1 : ns1 = [] := List.isEmpty_iff.mp h0
    have he2 : ns2 = [] := List.eq_nil_of_length_eq_zero (by rw [← hlen, he1]; rfl)
    subst he1
    subst he2
    rfl
  · have h0' : ¬ns2.isEmpty = true := by
      intro hc
      have he2 : ns2 = [] := List.isEmpty_iff.mp hc
      apply h0
      rw [List.isEmpty_iff]
      exact List.eq_nil_of_length_eq_zero (by rw [hlen, he2]; rfl)
    rw [autoLayoutNodes_char D ns1 es h0, autoLayoutNodes_char D ns2 es h0',
      out_filter_per ns1, out_filter_per ns2, List.map_map, List.map_map]
    have hc : ∀ pm : PosMap,
        ((fun n : Node => (n.id, n.position)) ∘ layoutApply pm) =
          fun n : Node => (n.id, pm n.id) := fun pm => funext fun n => rfl
    rw [hc, hc]
    have hfact : ∀ (l : List Node) (pm : PosMap),
        (l.map fun n => (n.id, pm n.id)) = (l.map fun n => n.id).map fun i => (i, pm i) := by
      intro l pm
      rw [List.map_map]
      rfl
    rw [hfact, hfact, erase_ids ns1 ns2 h]

/-- First node of the C5 cycle, positioned far from the origin. -/
def c5NodeA : Node := { id := "a", position := ⟨1000, 1000⟩ }

/-- Second node of the C5 cycle. -/
def c5NodeB : Node := { id := "b", position := ⟨2000, 2000⟩ }

/-- The C5 nodes: two persons joined in a hierarchical cycle. -/
def c5Nodes : List Node := [c5NodeA, c5NodeB]

/-- The cycle edges a -> b -> a, both hierarchical. -/
def c5Edges : List Edge :=
  [{ id := "e1", source := "a", target := "b", targetHandle := some "target-top" },
   { id := "e2", source := "b", target := "a", targetHandle := some "target-top" }]

/-- C5 counterexample: the claim states that a person node unreachable
    from a tree root keeps its most recent position. Here both persons
    sit in a hierarchical cycle — the root list is empty and the BFS
    visits nothing, so both are unreachable — yet autoLayout moves them:
    the dagre pass assigns every person a fresh position and the previous
    coordinates (1000,1000) and (2000,2000) are discarded. -/
theorem C5_counterexample :
    layoutRoots (c5Nodes.map fun n => n.id) c5Edges = [] ∧
    bfsLoop c5Edges (c5Nodes.map fun n => n.id)
      ((c5Nodes.map fun n => n.id).length + c5Edges.length + 2)
      (layoutRoots (c5Nodes.map fun n => n.id) c5Edges) [] = [] ∧
    (autoLayoutNodes dagreModel c5Nodes c5Edges).map (fun n => (n.id, n.position)) ≠
      c5Nodes.map fun n => (n.id, n.position) := by decide

/-- The C5 witness node sharing everything with `c5NodeA` but the
    position. -/
def c5wNode : Node := { id := "a" }

/-- Witness for the amended C5 theorem: an isolated person starting at
    (1000,1000) and one starting at (0,0) receive the same laid-out
    position. -/
theorem C5_amended_position_independence_witness :
    ((autoLayoutNodes dagreModel [c5NodeA] []).filter fun n => n.nodeType = "person").map
      (fun n => (n.id, n.position)) =
      ((autoLayoutNodes dagreModel [c5wNode] []).filter fun n => n.nodeType = "person").map
        fun n => (n.id, n.position) :=
  C5_amended_position_independence dagreModel [] [c5NodeA] [c5wNode] (by decide)
